import Mathlib

/-!
Shallow embedding of the Qualcomm SMEM shared-memory heap allocator
(`drivers/soc/qcom/smem.c` port in this U-Boot tree).

Memory inside a partition is modelled as a function from byte offsets
(relative to the partition header) to the decoded `smem_private_entry`
record that a read at that offset would yield.  All offsets and field
values are natural numbers; where the C code narrows to `u16`/`u32` or
does wrapping `size_t` arithmetic, an explicit `% 2^16` / `% 2^32` /
`% 2^64` is applied.  Pointers that can move below the partition header
(the cached, backward-growing scan) are modelled as `Int` offsets.
-/

namespace Smem

/-- SMEM_PRIVATE_CANARY, the 0xa5a5 sentinel of every private entry. -/
def canaryVal : Nat := 0xa5a5

/-- Size in bytes of `struct smem_private_entry` (2+2+4+2+2+4). -/
def entryHdrSize : Nat := 16

/-- Size in bytes of `struct smem_partition_header` (4+2+2+4+4+4+12). -/
def phdrSize : Nat := 32

/-- SMEM_ITEM_LAST_FIXED: ids below this are reserved for the boot loader. -/
def itemLastFixed : Nat := 8

/-- SMEM_ITEM_COUNT, the legacy fixed directory capacity. -/
def itemCountLegacy : Nat := 512

/-- SMEM_HOST_COUNT. -/
def hostCount : Nat := 20

/-- SMEM_GLOBAL_HOST. -/
def globalHost : Nat := 0xfffe

/-- ALIGN(n, 8) computed in `size_t` arithmetic: round up to a multiple of 8,
with 64-bit wraparound of the `n + 7` sum as in C. -/
def align8 (n : Nat) : Nat := (n + 7) % 2 ^ 64 / 8 * 8

/-- Kernel ALIGN(x, a) for its power-of-two contract: round `x` up to a
multiple of `a`; for `a = 0` the C macro yields 0 and so does this model
(division by zero is zero). -/
def alignUp (x a : Nat) : Nat := (x + a - 1) / a * a

/-- Decoded view of a `struct smem_private_entry` read from partition memory. -/
structure Entry where
  canary : Nat
  item : Nat
  size : Nat
  padding_data : Nat
  padding_hdr : Nat
deriving DecidableEq

/-- Distance from one uncached entry header to the next
(`uncached_entry_next`): header size plus header padding plus data size. -/
def entryStep (e : Entry) : Nat := entryHdrSize + e.padding_hdr + e.size

/-- State of one `struct smem_partition` together with the header fields and
entry records stored in its memory.  `mem o` is the private-entry record read
at byte offset `o` from the partition header. -/
structure PartitionMem where
  size : Nat
  cacheline : Nat
  offset_free_uncached : Nat
  offset_free_cached : Nat
  mem : Int → Entry

/-- Result of walking the uncached (forward) entry list. -/
inductive ScanU
  | corrupt
  | found (off : Nat)
  | done (off : Nat)
deriving DecidableEq

/-- Forward walk of the uncached entry list shared by
`qcom_smem_alloc_private` and `qcom_smem_get_private`: starting at `off`,
while the pointer is below `endOff`, stop with `corrupt` on a bad canary,
with `found` on a matching item id, else advance by `entryStep`. -/
def scanU (m : Int → Entry) (item endOff off : Nat) : ScanU :=
  if off < endOff then
    if (m off).canary ≠ canaryVal then .corrupt
    else if (m off).item = item then .found off
    else scanU m item endOff (off + entryStep (m off))
  else .done off
termination_by endOff - off
decreasing_by simp only [entryStep, entryHdrSize]; omega

/-- Result of walking the cached (backward) entry list. -/
inductive ScanC
  | nofuel
  | corrupt
  | found (e : Int)
  | done (e : Int)
deriving DecidableEq

/-- Backward walk of the cached entry list in `qcom_smem_get_private`:
while the pointer is above `endC`, stop with `corrupt` on a bad canary,
with `found` on a matching item id, else step down by the entry size plus
the cacheline-aligned header size (`cached_entry_next`).  The C loop can
fail to terminate when that step is zero, so the walk carries fuel. -/
def scanC (m : Int → Entry) (item cl endC : Nat) : Int → Nat → ScanC
  | _, 0 => .nofuel
  | e, fuel + 1 =>
    if e > (endC : Int) then
      if (m e).canary ≠ canaryVal then .corrupt
      else if (m e).item = item then .found e
      else scanC m item cl endC (e - (m e).size - alignUp entryHdrSize cl) fuel
    else .done e

/-- Error codes surfaced by the allocator facade: EINVAL, EEXIST, ENOSPC,
ENOMEM, ENXIO and ENOENT respectively. -/
inductive SmemErr
  | inval
  | already
  | noSpace
  | noMem
  | noItem
  | noEnt
deriving DecidableEq

/-- Bytes claimed for a new record: `sizeof(*hdr) + ALIGN(size, 8)` in
`size_t` arithmetic. -/
def allocSz (size : Nat) : Nat := (entryHdrSize + align8 size) % 2 ^ 64

/-- The record written by the `qcom_smem_alloc_private` success path: the
canary, the item id narrowed to `u16`, the aligned size narrowed to `u32`,
the data padding (`hdr->size - size` in `size_t` arithmetic narrowed to
`u16`) and a zero header padding. -/
def allocEntry (item size : Nat) : Entry :=
  { canary := canaryVal
    item := item % 2 ^ 16
    size := align8 size % 2 ^ 32
    padding_data :=
      (align8 size % 2 ^ 32 + (2 ^ 64 - size % 2 ^ 64)) % 2 ^ 64 % 2 ^ 16
    padding_hdr := 0 }

/-- Model of `qcom_smem_alloc_private`: walk the uncached list; reject on corruption
or an existing item; bounds-check the new record against the cached cursor;
then write the record and advance `offset_free_uncached` (with `le32`
wraparound).  Error paths leave the partition untouched. -/
def alloc_private (p : PartitionMem) (item size : Nat) :
    Except SmemErr Unit × PartitionMem :=
  if p.offset_free_uncached > p.size ∨ p.offset_free_cached > p.size then
    (.error .inval, p)
  else
    match scanU p.mem item p.offset_free_uncached phdrSize with
    | .corrupt => (.error .inval, p)
    | .found _ => (.error .already, p)
    | .done off =>
      if off > p.size then (.error .inval, p)
      else if off + allocSz size > p.offset_free_cached then (.error .noSpace, p)
      else
        (.ok (),
          { p with
            mem := fun o => if o = (off : Int) then allocEntry item size else p.mem o
            offset_free_uncached :=
              (p.offset_free_uncached + allocSz size % 2 ^ 32) % 2 ^ 32 })

/-- Model of `qcom_smem_get_private`: scan the uncached list, then the cached list.
Returns the item's byte offset (as `Int`, since cached item pointers are
formed by subtraction) and its reported size; `none` models the divergence
of the C loop when the cached walk runs out of fuel. -/
def get_private (p : PartitionMem) (item : Nat) (fuel : Nat) :
    Option (Except SmemErr (Int × Nat)) :=
  match scanU p.mem item p.offset_free_uncached phdrSize with
  | .corrupt => some (.error .inval)
  | .found off =>
    let e := p.mem off
    if e.size > p.size ∨ e.padding_data > e.size then some (.error .inval)
    else
      let itemOff := off + entryHdrSize + e.padding_hdr
      if itemOff > p.size then some (.error .inval)
      else some (.ok ((itemOff : Int), e.size - e.padding_data))
  | .done off =>
    if off > p.size then some (.error .inval)
    else
      let e0 : Int := (p.size : Int) - alignUp entryHdrSize p.cacheline
      let endC := p.offset_free_cached
      if e0 < 0 ∨ endC > p.size then some (.error .inval)
      else
        match scanC p.mem item p.cacheline endC e0 fuel with
        | .nofuel => none
        | .corrupt => some (.error .inval)
        | .found e =>
          let en := p.mem e
          if en.size > p.size ∨ en.padding_data > en.size then
            some (.error .inval)
          else
            let itemOff : Int := e - en.size
            if itemOff < 0 then some (.error .inval)
            else some (.ok (itemOff, en.size - en.padding_data))
        | .done e =>
          if e < 0 then some (.error .inval) else some (.error .noEnt)

/-- One `struct smem_global_entry` of the legacy 512-slot directory. -/
structure GEntry where
  allocated : Nat
  offset : Nat
  size : Nat
  aux_base : Nat
deriving DecidableEq

/-- The legacy-heap fields of `struct smem_header` used by the allocator. -/
structure SmemHeader where
  free_offset : Nat
  available : Nat
  toc : Nat → GEntry

/-- One `struct smem_region` (aux-base identifier and mapped size). -/
structure Region where
  aux_base : Nat
  size : Nat
deriving DecidableEq

/-- Model of `qcom_smem_alloc_global`: reject an already-allocated slot, reject when
the 8-byte-aligned size exceeds `available`; otherwise publish the entry and
move the legacy bump pointer (all counter updates with `le32` wraparound,
matching `le32_add_cpu` with the negated size converted to `u32`). -/
def alloc_global (h : SmemHeader) (item size : Nat) :
    Except SmemErr Unit × SmemHeader :=
  let e := h.toc item
  if e.allocated ≠ 0 then (.error .already, h)
  else
    let sz := align8 size
    if sz > h.available then (.error .noMem, h)
    else
      let e' : GEntry :=
        { allocated := 1, offset := h.free_offset, size := sz % 2 ^ 32
          aux_base := e.aux_base }
      (.ok (),
        { h with
          toc := fun i => if i = item then e' else h.toc i
          free_offset := (h.free_offset + sz % 2 ^ 32) % 2 ^ 32
          available := (h.available + (2 ^ 64 - sz) % 2 ^ 64 % 2 ^ 32) % 2 ^ 32 })

/-- AUX_BASE_MASK applied to an entry's aux base. -/
def auxBaseOf (e : GEntry) : Nat := e.aux_base &&& 0xfffffffc

/-- The region-search loop of `qcom_smem_get_global`: the first region whose
truncated aux base matches (or any region when the entry's aux base is 0)
answers the lookup, after bounds-checking `offset + size` against the
region's mapped size. -/
def get_global_find (aux eOff eSize : Nat) :
    List Region → Nat → Except SmemErr (Nat × Nat × Nat)
  | [], _ => .error .noEnt
  | r :: rest, i =>
    if r.aux_base % 2 ^ 32 = aux ∨ aux = 0 then
      if eSize + eOff > r.size then .error .inval
      else .ok (i, eOff, eSize)
    else get_global_find aux eOff eSize rest (i + 1)

/-- Model of `qcom_smem_get_global`: an unallocated slot yields ENXIO, otherwise the
entry is resolved against the region list. -/
def get_global (h : SmemHeader) (regions : List Region) (item : Nat) :
    Except SmemErr (Nat × Nat × Nat) :=
  let e := h.toc item
  if e.allocated = 0 then .error .noItem
  else get_global_find (auxBaseOf e) e.offset e.size regions 0

/-- The process-wide `struct qcom_smem` state consumed by the facade. -/
structure Smem where
  item_count : Nat
  partitions : Nat → Option PartitionMem
  global_partition : Option PartitionMem
  gheader : SmemHeader
  regions : List Region

/-- Where a lookup result points: into the dispatched private partition, or
into a numbered region of the legacy global heap. -/
inductive PtrLoc
  | part (off : Int)
  | global (i : Nat) (off : Nat)
deriving DecidableEq

/-- The partition that the facade's dispatch would use for a host: a private
partition when `host < SMEM_HOST_COUNT` and one is mapped, else the global
partition, else none (legacy heap). -/
def lookupPart (s : Smem) (host : Nat) : Option PartitionMem :=
  if host < hostCount then
    match s.partitions host with
    | some p => some p
    | none => s.global_partition
  else s.global_partition

/-- The global-or-legacy tail of the `qcom_smem_alloc` dispatch. -/
def allocFallback (s : Smem) (item size : Nat) :
    Except SmemErr Unit × Smem :=
  match s.global_partition with
  | some gp =>
    let r := alloc_private gp item size
    (r.1, { s with global_partition := some r.2 })
  | none =>
    let r := alloc_global s.gheader item size
    (r.1, { s with gheader := r.2 })

/-- Model of `qcom_smem_alloc` (with the SMEM handle present): reject reserved ids
below SMEM_ITEM_LAST_FIXED, reject ids at or above the item count, then
dispatch to the host's partition, the global partition, or the legacy heap. -/
def qcom_smem_alloc (s : Smem) (host item size : Nat) :
    Except SmemErr Unit × Smem :=
  if item < itemLastFixed then (.error .inval, s)
  else if item ≥ s.item_count then (.error .inval, s)
  else if host < hostCount then
    match s.partitions host with
    | some part =>
      let r := alloc_private part item size
      (r.1,
        { s with
          partitions := fun h2 => if h2 = host then some r.2 else s.partitions h2 })
    | none => allocFallback s item size
  else allocFallback s item size

/-- The global-or-legacy tail of the `qcom_smem_get` dispatch. -/
def lookupFallback (s : Smem) (item fuel : Nat) :
    Option (Except SmemErr (PtrLoc × Nat)) :=
  match s.global_partition with
  | some gp =>
    match get_private gp item fuel with
    | none => none
    | some (.error e) => some (.error e)
    | some (.ok (off, sz)) => some (.ok (.part off, sz))
  | none =>
    match get_global s.gheader s.regions item with
    | .error e => some (.error e)
    | .ok (i, off, sz) => some (.ok (.global i off, sz))

/-- The dispatch part of `qcom_smem_get` (after the item-count guard). -/
def smem_lookup (s : Smem) (host item fuel : Nat) :
    Option (Except SmemErr (PtrLoc × Nat)) :=
  if host < hostCount then
    match s.partitions host with
    | some p =>
      match get_private p item fuel with
      | none => none
      | some (.error e) => some (.error e)
      | some (.ok (off, sz)) => some (.ok (.part off, sz))
    | none => lookupFallback s item fuel
  else lookupFallback s item fuel

/-- Model of `qcom_smem_get` (with the SMEM handle present): the only guard is the
item-count bound; there is no reserved-threshold check on lookup. -/
def qcom_smem_get (s : Smem) (host item fuel : Nat) :
    Option (Except SmemErr (PtrLoc × Nat)) :=
  if item ≥ s.item_count then some (.error .inval)
  else smem_lookup s host item fuel

/-- One `struct smem_ptable_entry`. -/
structure PEntry where
  offset : Nat
  size : Nat
  host0 : Nat
  host1 : Nat
  cacheline : Nat
deriving DecidableEq

/-- Decoded partition table (`struct smem_ptable`): whether the magic bytes
match, the version word, and the entries the enumeration loop would read. -/
structure Ptable where
  magicOk : Bool
  version : Nat
  entries : List PEntry

/-- Decoded `struct smem_partition_header` fields read at a table entry's
offset. -/
structure PartHeaderRaw where
  magicOk : Bool
  host0 : Nat
  host1 : Nat
  size : Nat
  offset_free_uncached : Nat
deriving DecidableEq

/-- Environment seen by the one-time init path: the SBL version slot, the
partition table, a reader for partition headers at region offsets, and the
`smem_info` record used for the item count. -/
structure InitEnv where
  versionSlot : Nat
  ptable : Ptable
  readHeader : Nat → PartHeaderRaw
  infoMagicOk : Bool
  infoNumItems : Nat

/-- Model of `qcom_smem_get_ptable`: bad magic yields ENOENT, a version other than 1
yields EINVAL. -/
def get_ptable (env : InitEnv) : Except SmemErr Ptable :=
  if ¬env.ptable.magicOk then .error .noEnt
  else if env.ptable.version ≠ 1 then .error .inval
  else .ok env.ptable

/-- Model of `qcom_smem_get_item_count`: SMEM_ITEM_COUNT when the partition table or
the `smem_info` magic is unusable, otherwise the recorded item count. -/
def get_item_count (env : InitEnv) : Nat :=
  match get_ptable env with
  | .error _ => itemCountLegacy
  | .ok _ => if ¬env.infoMagicOk then itemCountLegacy else env.infoNumItems

/-- Validated partition parameters recorded by init for later dispatch. -/
structure PartDesc where
  offset : Nat
  size : Nat
  cacheline : Nat
deriving DecidableEq

/-- Model of `qcom_smem_partition_header`: accept the header at the entry's offset
only if its magic matches, `host0`/`host1` equal the requested pair, its
stored size equals the table entry's size, and `offset_free_uncached` does
not exceed that size. -/
def partition_header (rh : Nat → PartHeaderRaw) (entry : PEntry)
    (host0 host1 : Nat) : Option PartHeaderRaw :=
  let h := rh entry.offset
  if ¬h.magicOk then none
  else if h.host0 ≠ host0 then none
  else if h.host1 ≠ host1 then none
  else if h.size ≠ entry.size then none
  else if h.offset_free_uncached > h.size then none
  else some h

/-- The search predicate of `qcom_smem_set_global_partition`: a live table
entry addressed to the (global, global) host pair. -/
def isGlobalEntry (e : PEntry) : Bool :=
  e.offset ≠ 0 ∧ e.size ≠ 0 ∧ e.host0 = globalHost ∧ e.host1 = globalHost

/-- Model of `qcom_smem_set_global_partition`: fail if already set, propagate table
errors, fail when no (global, global) entry exists or when its header does
not validate. -/
def set_global_partition (env : InitEnv) (alreadySet : Bool) :
    Except SmemErr PartDesc :=
  if alreadySet then .error .inval
  else
    match get_ptable env with
    | .error e => .error e
    | .ok pt =>
      match pt.entries.find? isGlobalEntry with
      | none => .error .inval
      | some entry =>
        match partition_header env.readHeader entry globalHost globalHost with
        | none => .error .inval
        | some _ => .ok ⟨entry.offset, entry.size, entry.cacheline⟩

/-- Model of `qcom_smem_enumerate_partitions`, folded over the table entries: skip
entries with zero offset or size and entries not naming the local host;
reject remote hosts at or beyond SMEM_HOST_COUNT, duplicates, and headers
that fail validation; record each surviving partition under its remote
host. -/
def enumerate_partitions (rh : Nat → PartHeaderRaw) (localHost : Nat) :
    List PEntry → (Nat → Option PartDesc) →
    Except SmemErr (Nat → Option PartDesc)
  | [], acc => .ok acc
  | e :: rest, acc =>
    if e.offset = 0 then enumerate_partitions rh localHost rest acc
    else if e.size = 0 then enumerate_partitions rh localHost rest acc
    else if e.host0 = localHost ∨ e.host1 = localHost then
      let remote := if e.host0 = localHost then e.host1 else e.host0
      if remote ≥ hostCount then .error .inval
      else if (acc remote).isSome then .error .inval
      else
        match partition_header rh e e.host0 e.host1 with
        | none => .error .inval
        | some _ =>
          enumerate_partitions rh localHost rest
            (fun h => if h = remote then some ⟨e.offset, e.size, e.cacheline⟩
                      else acc h)
    else enumerate_partitions rh localHost rest acc

/-- Mode picked by `qcom_smem_init` from the version slot. -/
inductive InitMode
  | partitioned (gp : PartDesc) (item_count : Nat)
  | legacy (item_count : Nat)
deriving DecidableEq

/-- SMEM_GLOBAL_PART_VERSION. -/
def versionPart : Nat := 12

/-- SMEM_GLOBAL_HEAP_VERSION. -/
def versionHeap : Nat := 11

/-- The version switch of `qcom_smem_init`: major 12 requires a discoverable,
valid global partition and takes the item count from `smem_info`; major 11
selects the legacy heap with the fixed 512-item directory; anything else is
an unsupported version (EINVAL). -/
def init_select (env : InitEnv) : Except SmemErr InitMode :=
  match env.versionSlot >>> 16 with
  | 12 =>
    match set_global_partition env false with
    | .error e => .error e
    | .ok gp => .ok (.partitioned gp (get_item_count env))
  | 11 => .ok (.legacy itemCountLegacy)
  | _ => .error .inval

/-- The write events of the `qcom_smem_alloc_private` success path, in
program order: the five record-field stores, the `wmb` barrier, then the
cursor advance. -/
inductive AllocEv
  | wCanary
  | wItem
  | wSize
  | wPadData
  | wPadHdr
  | fence
  | wCursor
deriving DecidableEq

/-- Program-order event list of the success path (source lines: the five
header-field assignments, `wmb()`, `le32_add_cpu` on the cursor). -/
def allocEvs : List AllocEv :=
  [.wCanary, .wItem, .wSize, .wPadData, .wPadHdr, .fence, .wCursor]

/-- Update the entry record stored at offset `off`. -/
def updAt (m : Int → Entry) (off : Nat) (f : Entry → Entry) : Int → Entry :=
  fun o => if o = (off : Int) then f (m off) else m o

/-- Effect of a single event on the partition state.  The `wPadData` store
reads back the just-written `size` field exactly as the C line
`hdr->padding_data = cpu_to_le16(le32_to_cpu(hdr->size) - size)` does. -/
def applyEv (item size off allocSize : Nat) (p : PartitionMem) :
    AllocEv → PartitionMem
  | .wCanary => { p with mem := updAt p.mem off fun e => { e with canary := canaryVal } }
  | .wItem => { p with mem := updAt p.mem off fun e => { e with item := item % 2 ^ 16 } }
  | .wSize => { p with mem := updAt p.mem off fun e => { e with size := align8 size % 2 ^ 32 } }
  | .wPadData =>
    { p with
      mem := updAt p.mem off fun e =>
        { e with padding_data := (e.size + (2 ^ 64 - size % 2 ^ 64)) % 2 ^ 64 % 2 ^ 16 } }
  | .wPadHdr => { p with mem := updAt p.mem off fun e => { e with padding_hdr := 0 } }
  | .fence => p
  | .wCursor =>
    { p with offset_free_uncached := (p.offset_free_uncached + allocSize % 2 ^ 32) % 2 ^ 32 }

/-! ## Lemmas about the forward scan -/

/-- A forward scan that ends with `done o` stopped at or beyond the free
cursor, without moving backwards. -/
theorem scanU_done_bounds (m : Int → Entry) (item endOff : Nat) :
    ∀ off o, scanU m item endOff off = .done o → endOff ≤ o ∧ off ≤ o := by
  intro off
  induction off using scanU.induct m item endOff with
  | case1 off h hc =>
    intro o hs
    rw [scanU, if_pos h, if_pos hc] at hs
    cases hs
  | case2 off h hc hi =>
    intro o hs
    rw [scanU, if_pos h, if_neg hc, if_pos hi] at hs
    cases hs
  | case3 off h hc hi ih =>
    intro o hs
    rw [scanU, if_pos h, if_neg hc, if_neg hi] at hs
    have h2 := ih o hs
    simp only [entryStep, entryHdrSize] at h2
    omega
  | case4 off h =>
    intro o hs
    rw [scanU, if_neg h] at hs
    cases hs
    omega

/-- The forward scan only reads entries at offsets in `[off, endOff)`:
memories that agree there scan identically. -/
theorem scanU_congr (m m' : Int → Entry) (item endOff : Nat) :
    ∀ off, (∀ o2 : Nat, off ≤ o2 → o2 < endOff → m' o2 = m o2) →
      scanU m' item endOff off = scanU m item endOff off := by
  intro off
  induction off using scanU.induct m item endOff with
  | case1 off h hc =>
    intro hag
    have he : m' off = m off := hag off le_rfl h
    conv_lhs => rw [scanU]
    conv_rhs => rw [scanU]
    rw [if_pos h, if_pos h, he, if_pos hc, if_pos hc]
  | case2 off h hc hi =>
    intro hag
    have he : m' off = m off := hag off le_rfl h
    conv_lhs => rw [scanU]
    conv_rhs => rw [scanU]
    rw [if_pos h, if_pos h, he, if_neg hc, if_neg hc, if_pos hi, if_pos hi]
  | case3 off h hc hi ih =>
    intro hag
    have he : m' off = m off := hag off le_rfl h
    conv_lhs => rw [scanU]
    conv_rhs => rw [scanU]
    rw [if_pos h, if_pos h, he, if_neg hc, if_neg hc, if_neg hi, if_neg hi]
    exact ih fun o2 hlo hhi => hag o2 (le_trans (Nat.le_add_right _ _) hlo) hhi
  | case4 off h =>
    intro _
    conv_lhs => rw [scanU]
    conv_rhs => rw [scanU]
    rw [if_neg h, if_neg h]

/-- Extending the scan window past a scan that landed exactly on the cursor
resumes from the cursor. -/
theorem scanU_extend (m : Int → Entry) (item endOff endOff' : Nat)
    (hle : endOff ≤ endOff') :
    ∀ off, scanU m item endOff off = .done endOff →
      scanU m item endOff' off = scanU m item endOff' endOff := by
  intro off
  induction off using scanU.induct m item endOff with
  | case1 off h hc =>
    intro hs
    rw [scanU, if_pos h, if_pos hc] at hs
    cases hs
  | case2 off h hc hi =>
    intro hs
    rw [scanU, if_pos h, if_neg hc, if_pos hi] at hs
    cases hs
  | case3 off h hc hi ih =>
    intro hs
    rw [scanU, if_pos h, if_neg hc, if_neg hi] at hs
    rw [scanU, if_pos (lt_of_lt_of_le h hle), if_neg hc, if_neg hi]
    exact ih hs
  | case4 off h =>
    intro hs
    rw [scanU, if_neg h] at hs
    cases hs
    rfl

/-- Offsets the forward scan visits while walking the chain towards `item`:
each step requires a live canary and a non-matching id. -/
inductive ReachU (m : Int → Entry) (item endOff : Nat) : Nat → Nat → Prop
  | refl (off : Nat) : ReachU m item endOff off off
  | step {off o : Nat} :
    off < endOff → (m off).canary = canaryVal → (m off).item ≠ item →
    ReachU m item endOff (off + entryStep (m off)) o → ReachU m item endOff off o

/-- A visited entry with a broken canary aborts the whole forward scan with
`corrupt`; nothing beyond it is inspected. -/
theorem scanU_reach_corrupt (m : Int → Entry) (item endOff start o : Nat)
    (hr : ReachU m item endOff start o) (ho : o < endOff)
    (hbad : (m o).canary ≠ canaryVal) :
    scanU m item endOff start = .corrupt := by
  induction hr with
  | refl off => rw [scanU, if_pos ho, if_pos hbad]
  | step h hcan hitem _ ih =>
    rw [scanU, if_pos h, if_neg (by simp [hcan]), if_neg hitem]
    exact ih ho hbad

/-- Cached-list positions visited by the backward scan (with the step count
recorded), mirroring `ReachU` for the forward list. -/
inductive ReachC (m : Int → Entry) (item cl endC : Nat) : Int → Int → Nat → Prop
  | refl (e : Int) : ReachC m item cl endC e e 0
  | step {e o : Int} {k : Nat} :
    e > (endC : Int) → (m e).canary = canaryVal → (m e).item ≠ item →
    ReachC m item cl endC (e - (m e).size - alignUp entryHdrSize cl) o k →
    ReachC m item cl endC e o (k + 1)

/-- A visited cached entry with a broken canary aborts the backward scan
with `corrupt`, for any fuel beyond the steps needed to reach it. -/
theorem scanC_reach_corrupt (m : Int → Entry) (item cl endC : Nat)
    (start o : Int) (k : Nat) (hr : ReachC m item cl endC start o k)
    (ho : o > (endC : Int)) (hbad : (m o).canary ≠ canaryVal) :
    ∀ fuel, k < fuel → scanC m item cl endC start fuel = .corrupt := by
  induction hr with
  | refl e =>
    intro fuel hf
    match fuel, hf with
    | fuel + 1, _ => rw [scanC, if_pos ho, if_pos hbad]
  | step h hcan hitem _ ih =>
    intro fuel hf
    match fuel, hf with
    | fuel + 1, hf =>
      rw [scanC, if_pos h, if_neg (by simp [hcan]), if_neg hitem]
      exact ih ho hbad fuel (by omega)

/-! ## Arithmetic facts about the aligned sizes -/

/-- For sizes below `2^32` the wrapping ALIGN(size, 8) is the plain round-up
to a multiple of 8. -/
theorem align8_spec (size : Nat) (h : size < 2 ^ 32) :
    size ≤ align8 size ∧ align8 size ≤ size + 7 := by
  unfold align8
  omega

/-- Below `2^32` no 64-bit wraparound happens in the record size. -/
theorem allocSz_eq (size : Nat) (h : size < 2 ^ 32) :
    allocSz size = entryHdrSize + align8 size := by
  have h8 := align8_spec size h
  unfold allocSz entryHdrSize
  omega

/-- With an in-range id and size the written record's narrowed fields are
exact: the id is stored as-is, the size is the aligned size, and the data
padding is the alignment slack. -/
theorem allocEntry_spec (item size : Nat) (hi : item < 2 ^ 16)
    (hs : size < 2 ^ 32) (hs32 : align8 size < 2 ^ 32) :
    allocEntry item size =
      ⟨canaryVal, item, align8 size, align8 size - size, 0⟩ := by
  have h8 := align8_spec size hs
  unfold allocEntry
  congr 1
  · omega
  · omega
  · omega

/-- The backward scan never moves up: a `found` position is at or below the
starting position. -/
theorem scanC_found_le (m : Int → Entry) (item cl endC : Nat) :
    ∀ fuel start e, scanC m item cl endC start fuel = .found e → e ≤ start := by
  intro fuel
  induction fuel with
  | zero => intro start e hs; cases hs
  | succ fuel ih =>
    intro start e hs
    rw [scanC] at hs
    by_cases h : start > (endC : Int)
    · rw [if_pos h] at hs
      by_cases hc : (m start).canary ≠ canaryVal
      · rw [if_pos hc] at hs; cases hs
      · rw [if_neg hc] at hs
        by_cases hi : (m start).item = item
        · rw [if_pos hi] at hs; cases hs; rfl
        · rw [if_neg hi] at hs
          have := ih _ _ hs
          have hsz : (0 : Int) ≤ (m start).size := Int.ofNat_nonneg _
          have hal : (0 : Int) ≤ (alignUp entryHdrSize cl : Int) := Int.ofNat_nonneg _
          omega
    · rw [if_neg h] at hs; cases hs

/-! ## Anatomy of a successful private allocation -/

/-- Chain consistency of a partition for an id: the forward scan lands
exactly on the free cursor.  This is the well-formedness a heap written
only through the allocator maintains. -/
def chainOk (p : PartitionMem) (item : Nat) : Prop :=
  scanU p.mem item p.offset_free_uncached phdrSize = .done p.offset_free_uncached

/-- A successful `qcom_smem_alloc_private` implies every guard passed, and
its final state is the original one with the record written at the old
cursor and the cursor advanced. -/
theorem alloc_private_success (p : PartitionMem) (item size : Nat)
    (hready : chainOk p item)
    (hok : (alloc_private p item size).1 = .ok ()) :
    p.offset_free_uncached ≤ p.size ∧ p.offset_free_cached ≤ p.size ∧
    p.offset_free_uncached + allocSz size ≤ p.offset_free_cached ∧
    (alloc_private p item size).2 =
      { p with
        mem := fun o =>
          if o = (p.offset_free_uncached : Int) then allocEntry item size
          else p.mem o
        offset_free_uncached :=
          (p.offset_free_uncached + allocSz size % 2 ^ 32) % 2 ^ 32 } := by
  unfold chainOk at hready
  unfold alloc_private at hok ⊢
  simp only [hready] at hok ⊢
  by_cases h1 : p.offset_free_uncached > p.size ∨ p.offset_free_cached > p.size
  · rw [if_pos h1] at hok
    cases hok
  · rw [if_neg h1] at hok ⊢
    by_cases h2 : p.offset_free_uncached > p.size
    · exact absurd (Or.inl h2) h1
    · rw [if_neg h2] at hok ⊢
      by_cases h3 : p.offset_free_uncached + allocSz size > p.offset_free_cached
      · rw [if_pos h3] at hok
        cases hok
      · rw [if_neg h3] at hok ⊢
        exact ⟨by omega, by omega, by omega, rfl⟩

/-- After a successful allocation the widened forward scan finds the new
record exactly at the old cursor. -/
theorem scanU_after_alloc (p : PartitionMem) (item size : Nat)
    (h32 : p.size < 2 ^ 32) (hready : chainOk p item)
    (hitem : item < 2 ^ 16) (hsz : size < 2 ^ 32)
    (hok : (alloc_private p item size).1 = .ok ()) :
    (alloc_private p item size).2.offset_free_uncached =
      p.offset_free_uncached + allocSz size ∧
    scanU (alloc_private p item size).2.mem item
        (p.offset_free_uncached + allocSz size) phdrSize =
      .found p.offset_free_uncached := by
  obtain ⟨hE, hC, hfit, heq⟩ := alloc_private_success p item size hready hok
  have hAeq := allocSz_eq size hsz
  have h8 := align8_spec size hsz
  have hs32 : align8 size < 2 ^ 32 := by
    unfold entryHdrSize at hAeq
    omega
  have hA32 : allocSz size % 2 ^ 32 = allocSz size := by
    apply Nat.mod_eq_of_lt
    omega
  have hcur : (p.offset_free_uncached + allocSz size % 2 ^ 32) % 2 ^ 32 =
      p.offset_free_uncached + allocSz size := by
    rw [hA32]
    exact Nat.mod_eq_of_lt (by omega)
  rw [heq]
  refine ⟨hcur, ?_⟩
  have hagree : ∀ o2 : Nat, phdrSize ≤ o2 → o2 < p.offset_free_uncached →
      (fun o => if o = (p.offset_free_uncached : Int) then allocEntry item size
        else p.mem o) (o2 : Int) = p.mem o2 := by
    intro o2 _ hlt
    have : (o2 : Int) ≠ (p.offset_free_uncached : Int) := by
      exact_mod_cast Nat.ne_of_lt hlt
    simp only [this, if_false]
  have hbase :
      scanU (fun o => if o = (p.offset_free_uncached : Int) then allocEntry item size
        else p.mem o) item p.offset_free_uncached phdrSize =
      .done p.offset_free_uncached := by
    rw [scanU_congr p.mem _ item p.offset_free_uncached phdrSize hagree]
    exact hready
  have hext := scanU_extend
    (fun o => if o = (p.offset_free_uncached : Int) then allocEntry item size
      else p.mem o) item p.offset_free_uncached
    (p.offset_free_uncached + allocSz size) (by omega) phdrSize hbase
  have hApos : 0 < allocSz size := by
    unfold allocSz align8 entryHdrSize
    omega
  rw [hext, scanU, if_pos (by omega)]
  simp only [eq_self_iff_true, if_true, allocEntry_spec item size hitem hsz hs32]
  simp [canaryVal]

/-- Core of C1 at the partition level: a successful allocation followed by a
lookup of the same id yields the freshly written item, whose reported size
is the requested size and whose data span stays inside the partition. -/
theorem alloc_get_core (p : PartitionMem) (item size fuel : Nat)
    (h32 : p.size < 2 ^ 32) (hready : chainOk p item)
    (hitem : item < 2 ^ 16) (hsz : size < 2 ^ 32)
    (hok : (alloc_private p item size).1 = .ok ()) :
    get_private (alloc_private p item size).2 item fuel =
      some (.ok (((p.offset_free_uncached + entryHdrSize : Nat) : Int), size)) ∧
    p.offset_free_uncached + entryHdrSize + size ≤ p.size ∧
    (alloc_private p item size).2.size = p.size := by
  obtain ⟨hE, hC, hfit, heq⟩ := alloc_private_success p item size hready hok
  obtain ⟨hcur, hfound⟩ := scanU_after_alloc p item size h32 hready hitem hsz hok
  have hAeq := allocSz_eq size hsz
  have h8 := align8_spec size hsz
  have hs32 : align8 size < 2 ^ 32 := by
    unfold entryHdrSize at hAeq
    omega
  have hsize : (alloc_private p item size).2.size = p.size := by rw [heq]
  refine ⟨?_, ?_, hsize⟩
  · unfold get_private
    rw [hcur, hfound]
    have hmem : (alloc_private p item size).2.mem
        ((p.offset_free_uncached : Nat) : Int) = allocEntry item size := by
      rw [heq]
      simp
    simp only [hmem, allocEntry_spec item size hitem hsz hs32, hsize]
    have hc1 : ¬(align8 size > p.size ∨ align8 size - size > align8 size) := by
      unfold entryHdrSize at hAeq
      omega
    rw [if_neg hc1]
    have hc2 : ¬(p.offset_free_uncached + entryHdrSize + 0 > p.size) := by
      unfold entryHdrSize at hAeq ⊢
      omega
    rw [if_neg hc2]
    have h3 : align8 size - (align8 size - size) = size := by omega
    rw [h3]
    norm_num
  · unfold entryHdrSize at hAeq ⊢
    omega

/-- Core of C2 at the partition level: re-allocating an id that a previous
call allocated fails with EEXIST and returns the partition unchanged. -/
theorem alloc_twice_core (p : PartitionMem) (item size size2 : Nat)
    (h32 : p.size < 2 ^ 32) (hready : chainOk p item)
    (hitem : item < 2 ^ 16) (hsz : size < 2 ^ 32)
    (hok : (alloc_private p item size).1 = .ok ()) :
    alloc_private (alloc_private p item size).2 item size2 =
      (.error .already, (alloc_private p item size).2) := by
  obtain ⟨hE, hC, hfit, heq⟩ := alloc_private_success p item size hready hok
  obtain ⟨hcur, hfound⟩ := scanU_after_alloc p item size h32 hready hitem hsz hok
  have hsz2 : (alloc_private p item size).2.size = p.size := by rw [heq]
  have hcc : (alloc_private p item size).2.offset_free_cached =
      p.offset_free_cached := by rw [heq]
  rw [alloc_private, hcur, hsz2, hcc]
  rw [if_neg (by omega)]
  simp only [hfound]

/-! ## The legacy global heap -/

/-- A successful `qcom_smem_alloc_global` implies the slot was free and the
aligned size fit, and its final state publishes the entry and moves the
legacy counters. -/
theorem alloc_global_success (h : SmemHeader) (item size : Nat)
    (hok : (alloc_global h item size).1 = .ok ()) :
    (h.toc item).allocated = 0 ∧ align8 size ≤ h.available ∧
    (alloc_global h item size).2 =
      { h with
        toc := fun i => if i = item then
            ⟨1, h.free_offset, align8 size % 2 ^ 32, (h.toc item).aux_base⟩
          else h.toc i
        free_offset := (h.free_offset + align8 size % 2 ^ 32) % 2 ^ 32
        available :=
          (h.available + (2 ^ 64 - align8 size) % 2 ^ 64 % 2 ^ 32) % 2 ^ 32 } := by
  unfold alloc_global at hok ⊢
  by_cases h1 : (h.toc item).allocated ≠ 0
  · rw [if_pos h1] at hok
    cases hok
  · rw [if_neg h1] at hok ⊢
    by_cases h2 : align8 size > h.available
    · rw [if_pos h2] at hok
      cases hok
    · rw [if_neg h2] at hok ⊢
      exact ⟨by omega, by omega, rfl⟩

/-- Looking up a freshly allocated legacy item returns its offset and
aligned size out of the first region, within that region's bounds. -/
theorem get_global_after_alloc (h : SmemHeader) (item size : Nat)
    (r0 : Region) (rest : List Region)
    (hfo : h.free_offset < 2 ^ 32) (hav : h.available < 2 ^ 32)
    (hbound : h.free_offset + h.available ≤ r0.size)
    (haux : auxBaseOf (h.toc item) = 0)
    (hsz : size < 2 ^ 32)
    (hok : (alloc_global h item size).1 = .ok ()) :
    get_global (alloc_global h item size).2 (r0 :: rest) item =
      .ok (0, h.free_offset, align8 size) ∧
    h.free_offset + align8 size ≤ r0.size ∧ size ≤ align8 size := by
  obtain ⟨hfree, hfit, heq⟩ := alloc_global_success h item size hok
  have h8 := align8_spec size hsz
  have hmod : align8 size % 2 ^ 32 = align8 size := Nat.mod_eq_of_lt (by omega)
  have htoc : (alloc_global h item size).2.toc item =
      ⟨1, h.free_offset, align8 size % 2 ^ 32, (h.toc item).aux_base⟩ := by
    rw [heq]
    simp
  have hauxe : auxBaseOf
      (⟨1, h.free_offset, align8 size % 2 ^ 32, (h.toc item).aux_base⟩ : GEntry) = 0 := by
    unfold auxBaseOf at haux ⊢
    exact haux
  refine ⟨?_, by omega, by omega⟩
  unfold get_global
  rw [htoc, if_neg (by simp), hauxe]
  show get_global_find 0 h.free_offset (align8 size % 2 ^ 32) (r0 :: rest) 0 =
    .ok (0, h.free_offset, align8 size)
  unfold get_global_find
  rw [if_pos (Or.inr rfl), if_neg (by omega), hmod]

/-- Re-allocating an allocated legacy slot fails with EEXIST and changes
nothing. -/
theorem alloc_global_twice (h : SmemHeader) (item size size2 : Nat)
    (hok : (alloc_global h item size).1 = .ok ()) :
    alloc_global (alloc_global h item size).2 item size2 =
      (.error .already, (alloc_global h item size).2) := by
  obtain ⟨hfree, hfit, heq⟩ := alloc_global_success h item size hok
  have htoc : (alloc_global h item size).2.toc item =
      ⟨1, h.free_offset, align8 size % 2 ^ 32, (h.toc item).aux_base⟩ := by
    rw [heq]
    simp
  rw [alloc_global, htoc]
  rw [if_pos (by simp)]

/-! ## Facade-level dispatch -/

/-- Well-formedness of the partition an operation will dispatch to. -/
def partReadyP (p : PartitionMem) (item : Nat) : Prop :=
  p.size < 2 ^ 32 ∧ chainOk p item

/-- Well-formedness of the legacy heap for an item: in-range counters, a
primary region covering the heap's free space, and a clean aux base in the
item's directory slot. -/
def legacyReady (s : Smem) (item : Nat) : Prop :=
  s.gheader.free_offset < 2 ^ 32 ∧ s.gheader.available < 2 ^ 32 ∧
  (∃ r0 rest, s.regions = r0 :: rest ∧
    s.gheader.free_offset + s.gheader.available ≤ r0.size) ∧
  auxBaseOf (s.gheader.toc item) = 0

/-- Well-formedness of whatever backend the facade dispatches `(host, item)`
to. -/
def allocReady (s : Smem) (host item : Nat) : Prop :=
  match lookupPart s host with
  | some p => partReadyP p item
  | none => legacyReady s item

/-- The returned span lies inside the owning partition (partitioned modes)
or the owning region (legacy mode). -/
def spanOk (s : Smem) (host : Nat) (loc : PtrLoc) (sz : Nat) : Prop :=
  match loc with
  | .part off => ∃ p, lookupPart s host = some p ∧ 0 ≤ off ∧
      off + (sz : Int) ≤ (p.size : Int)
  | .global i off => ∃ r, s.regions.get? i = some r ∧ off + sz ≤ r.size

/-- A successful facade allocation passed both id guards. -/
theorem qcom_smem_alloc_guards (s : Smem) (host item size : Nat)
    (hok : (qcom_smem_alloc s host item size).1 = .ok ()) :
    itemLastFixed ≤ item ∧ item < s.item_count := by
  unfold qcom_smem_alloc at hok
  by_cases h1 : item < itemLastFixed
  · rw [if_pos h1] at hok
    cases hok
  · rw [if_neg h1] at hok
    by_cases h2 : item ≥ s.item_count
    · rw [if_pos h2] at hok
      cases hok
    · exact ⟨by omega, by omega⟩

/-- The facade allocator never touches the item count. -/
theorem qcom_smem_alloc_item_count (s : Smem) (host item size : Nat) :
    (qcom_smem_alloc s host item size).2.item_count = s.item_count := by
  unfold qcom_smem_alloc allocFallback
  by_cases h1 : item < itemLastFixed
  · rw [if_pos h1]
  · rw [if_neg h1]
    by_cases h2 : item ≥ s.item_count
    · rw [if_pos h2]
    · rw [if_neg h2]
      by_cases h3 : host < hostCount
      · rw [if_pos h3]
        cases hp : s.partitions host <;> cases hg : s.global_partition <;> simp [hp, hg]
      · rw [if_neg h3]
        cases hg : s.global_partition <;> simp [hg]

/-- Fallback dispatch onto a present global partition: a successful
allocation is immediately visible to the fallback lookup, inside bounds. -/
theorem fallback_gp (s : Smem) (item size fuel : Nat) (gp : PartitionMem)
    (hgp : s.global_partition = some gp)
    (hready : partReadyP gp item) (hitem : item < 2 ^ 16) (hsz : size < 2 ^ 32)
    (hok : (allocFallback s item size).1 = .ok ()) :
    lookupFallback (allocFallback s item size).2 item fuel =
      some (.ok (.part ((gp.offset_free_uncached + entryHdrSize : Nat) : Int), size)) ∧
    (allocFallback s item size).2.global_partition =
      some (alloc_private gp item size).2 ∧
    (allocFallback s item size).2.partitions = s.partitions ∧
    (alloc_private gp item size).2.size = gp.size ∧
    gp.offset_free_uncached + entryHdrSize + size ≤ gp.size := by
  simp only [allocFallback, hgp] at hok ⊢
  obtain ⟨hget, hbound, hszeq⟩ :=
    alloc_get_core gp item size fuel hready.1 hready.2 hitem hsz hok
  refine ⟨?_, trivial, trivial, hszeq, hbound⟩
  simp only [lookupFallback, hget]

/-- Fallback dispatch onto the legacy heap: a successful allocation is
immediately visible to the fallback lookup, inside the first region. -/
theorem fallback_legacy (s : Smem) (item size fuel : Nat)
    (hgp : s.global_partition = none)
    (hready : legacyReady s item) (hsz : size < 2 ^ 32)
    (hok : (allocFallback s item size).1 = .ok ()) :
    ∃ r0 rest, s.regions = r0 :: rest ∧
    lookupFallback (allocFallback s item size).2 item fuel =
      some (.ok (.global 0 s.gheader.free_offset, align8 size)) ∧
    (allocFallback s item size).2.partitions = s.partitions ∧
    (allocFallback s item size).2.global_partition = none ∧
    (allocFallback s item size).2.regions = s.regions ∧
    s.gheader.free_offset + align8 size ≤ r0.size ∧ size ≤ align8 size := by
  obtain ⟨hfo, hav, ⟨r0, rest, hreg, hbound⟩, haux⟩ := hready
  simp only [allocFallback, hgp] at hok ⊢
  obtain ⟨hget, hb2, hb3⟩ :=
    get_global_after_alloc s.gheader item size r0 rest hfo hav hbound haux hsz hok
  refine ⟨r0, rest, hreg, ?_, trivial, trivial, trivial, hb2, hb3⟩
  simp only [lookupFallback, hgp, hreg, hget]

/-- Main C1 lemma: a successful facade allocation followed by a facade
lookup of the same `(host, item)` pair yields a pointer for at least the
requested number of bytes, inside the owning partition or region. -/
theorem alloc_then_get (s : Smem) (host item size fuel : Nat)
    (hready : allocReady s host item) (hitem : item < 2 ^ 16)
    (hsz : size < 2 ^ 32)
    (hok : (qcom_smem_alloc s host item size).1 = .ok ()) :
    ∃ loc rsz,
      qcom_smem_get (qcom_smem_alloc s host item size).2 host item fuel =
        some (.ok (loc, rsz)) ∧
      size ≤ rsz ∧ spanOk (qcom_smem_alloc s host item size).2 host loc rsz := by
  obtain ⟨hg1, hg2⟩ := qcom_smem_alloc_guards s host item size hok
  have hcnt := qcom_smem_alloc_item_count s host item size
  have hguard : ¬(item < itemLastFixed) := by omega
  have hguard2 : ¬(item ≥ s.item_count) := by omega
  unfold qcom_smem_alloc at hok hcnt ⊢
  rw [if_neg hguard, if_neg hguard2] at hok hcnt ⊢
  unfold allocReady at hready
  unfold lookupPart at hready
  by_cases hh : host < hostCount
  · rw [if_pos hh] at hok hcnt ⊢
    rw [if_pos hh] at hready
    cases hp : s.partitions host with
    | some part =>
      rw [hp] at hready
      simp only [hp] at hok hcnt ⊢
      obtain ⟨hget, hbound, hszeq⟩ :=
        alloc_get_core part item size fuel hready.1 hready.2 hitem hsz hok
      refine ⟨.part ((part.offset_free_uncached + entryHdrSize : Nat) : Int),
        size, ?_, le_rfl, ?_⟩
      · unfold qcom_smem_get
        rw [if_neg (by simpa using hguard2)]
        unfold smem_lookup
        rw [if_pos hh]
        simp only [eq_self_iff_true, if_true, hget]
      · unfold spanOk
        refine ⟨(alloc_private part item size).2, ?_, by positivity, ?_⟩
        · unfold lookupPart
          rw [if_pos hh]
          simp
        · rw [hszeq]
          exact_mod_cast hbound
    | none =>
      rw [hp] at hready
      simp only [hp] at hok hcnt ⊢
      cases hgp : s.global_partition with
      | some gp =>
        rw [hgp] at hready
        obtain ⟨hlook, hgset, hpset, hszeq, hbound⟩ :=
          fallback_gp s item size fuel gp hgp hready hitem hsz hok
        refine ⟨.part ((gp.offset_free_uncached + entryHdrSize : Nat) : Int),
          size, ?_, le_rfl, ?_⟩
        · unfold qcom_smem_get
          rw [if_neg (by
            rw [show (allocFallback s item size).2.item_count = s.item_count by
              unfold allocFallback
              rw [hgp]]
            exact hguard2)]
          unfold smem_lookup
          rw [if_pos hh, hpset, hp]
          exact hlook
        · unfold spanOk
          refine ⟨(alloc_private gp item size).2, ?_, by positivity, ?_⟩
          · unfold lookupPart
            rw [if_pos hh, hpset, hp, hgset]
          · rw [hszeq]
            exact_mod_cast hbound
      | none =>
        rw [hgp] at hready
        obtain ⟨r0, rest, hreg, hlook, hpset, hgset, hrset, hbound, hge⟩ :=
          fallback_legacy s item size fuel hgp hready hsz hok
        refine ⟨.global 0 s.gheader.free_offset, align8 size, ?_, hge, ?_⟩
        · unfold qcom_smem_get
          rw [if_neg (by
            rw [show (allocFallback s item size).2.item_count = s.item_count by
              unfold allocFallback
              rw [hgp]]
            exact hguard2)]
          unfold smem_lookup
          rw [if_pos hh, hpset, hp]
          exact hlook
        · unfold spanOk
          exact ⟨r0, by rw [hrset, hreg]; rfl, by omega⟩
  · rw [if_neg hh] at hok hcnt ⊢
    rw [if_neg hh] at hready
    cases hgp : s.global_partition with
    | some gp =>
      rw [hgp] at hready
      obtain ⟨hlook, hgset, hpset, hszeq, hbound⟩ :=
        fallback_gp s item size fuel gp hgp hready hitem hsz hok
      refine ⟨.part ((gp.offset_free_uncached + entryHdrSize : Nat) : Int),
        size, ?_, le_rfl, ?_⟩
      · unfold qcom_smem_get
        rw [if_neg (by
          rw [show (allocFallback s item size).2.item_count = s.item_count by
            unfold allocFallback
            rw [hgp]]
          exact hguard2)]
        unfold smem_lookup
        rw [if_neg hh]
        exact hlook
      · unfold spanOk
        refine ⟨(alloc_private gp item size).2, ?_, by positivity, ?_⟩
        · unfold lookupPart
          rw [if_neg hh, hgset]
        · rw [hszeq]
          exact_mod_cast hbound
    | none =>
      rw [hgp] at hready
      obtain ⟨r0, rest, hreg, hlook, hpset, hgset, hrset, hbound, hge⟩ :=
        fallback_legacy s item size fuel hgp hready hsz hok
      refine ⟨.global 0 s.gheader.free_offset, align8 size, ?_, hge, ?_⟩
      · unfold qcom_smem_get
        rw [if_neg (by
          rw [show (allocFallback s item size).2.item_count = s.item_count by
            unfold allocFallback
            rw [hgp]]
          exact hguard2)]
        unfold smem_lookup
        rw [if_neg hh]
        exact hlook
      · unfold spanOk
        exact ⟨r0, by rw [hrset, hreg]; rfl, by omega⟩

/-- Second allocation through the fallback path, global partition present:
EEXIST and no state change. -/
theorem fallback_gp_twice (s : Smem) (item size size2 : Nat) (gp : PartitionMem)
    (hgp : s.global_partition = some gp)
    (hready : partReadyP gp item) (hitem : item < 2 ^ 16) (hsz : size < 2 ^ 32)
    (hok : (allocFallback s item size).1 = .ok ()) :
    allocFallback (allocFallback s item size).2 item size2 =
      (.error .already, (allocFallback s item size).2) := by
  simp only [allocFallback, hgp] at hok ⊢
  rw [alloc_twice_core gp item size size2 hready.1 hready.2 hitem hsz hok]

/-- Second allocation through the fallback path, legacy heap: EEXIST and no
state change. -/
theorem fallback_legacy_twice (s : Smem) (item size size2 : Nat)
    (hgp : s.global_partition = none)
    (hok : (allocFallback s item size).1 = .ok ()) :
    allocFallback (allocFallback s item size).2 item size2 =
      (.error .already, (allocFallback s item size).2) := by
  simp only [allocFallback, hgp] at hok ⊢
  rw [alloc_global_twice s.gheader item size size2 hok]

/-- Main C2 lemma: once a facade allocation for `(host, item)` has
succeeded, any further allocation for the same pair fails with EEXIST and
returns the heap state unchanged. -/
theorem alloc_then_alloc (s : Smem) (host item size size2 : Nat)
    (hready : allocReady s host item) (hitem : item < 2 ^ 16)
    (hsz : size < 2 ^ 32)
    (hok : (qcom_smem_alloc s host item size).1 = .ok ()) :
    qcom_smem_alloc (qcom_smem_alloc s host item size).2 host item size2 =
      (.error .already, (qcom_smem_alloc s host item size).2) := by
  obtain ⟨hg1, hg2⟩ := qcom_smem_alloc_guards s host item size hok
  have hguard : ¬(item < itemLastFixed) := by omega
  have hguard2 : ¬(item ≥ s.item_count) := by omega
  unfold qcom_smem_alloc at hok ⊢
  rw [if_neg hguard, if_neg hguard2] at hok ⊢
  unfold allocReady lookupPart at hready
  by_cases hh : host < hostCount
  · rw [if_pos hh] at hok hready ⊢
    cases hp : s.partitions host with
    | some part =>
      rw [hp] at hready
      simp only [hp] at hok ⊢
      rw [if_neg hguard, if_neg (by simpa using hguard2), if_pos hh]
      simp only [eq_self_iff_true, if_true]
      rw [alloc_twice_core part item size size2 hready.1 hready.2 hitem hsz hok]
      simp only [Prod.mk.injEq]
      refine ⟨trivial, ?_⟩
      congr 1
      funext h2
      by_cases hcase : h2 = host
      · simp [hcase]
      · simp [hcase]
    | none =>
      rw [hp] at hready
      simp only [hp] at hok ⊢
      have hpres : (allocFallback s item size).2.partitions = s.partitions ∧
          (allocFallback s item size).2.item_count = s.item_count := by
        unfold allocFallback
        cases hgp : s.global_partition <;> simp
      rw [if_neg hguard, if_neg (by rw [hpres.2]; exact hguard2), if_pos hh,
        hpres.1, hp]
      cases hgp : s.global_partition with
      | some gp =>
        rw [hgp] at hready
        exact fallback_gp_twice s item size size2 gp hgp hready hitem hsz hok
      | none =>
        exact fallback_legacy_twice s item size size2 hgp hok
  · rw [if_neg hh] at hok hready ⊢
    have hpres : (allocFallback s item size).2.item_count = s.item_count := by
      unfold allocFallback
      cases hgp : s.global_partition <;> simp
    rw [if_neg hguard, if_neg (by rw [hpres]; exact hguard2), if_neg hh]
    cases hgp : s.global_partition with
    | some gp =>
      rw [hgp] at hready
      exact fallback_gp_twice s item size size2 gp hgp hready hitem hsz hok
    | none =>
      exact fallback_legacy_twice s item size size2 hgp hok

/-- Any successful private allocation leaves the forward cursor at or below
the backward cursor, whatever the prior chain looked like. -/
theorem alloc_private_preserves (p : PartitionMem) (item size : Nat)
    (h32 : p.size < 2 ^ 32)
    (hok : (alloc_private p item size).1 = .ok ()) :
    (alloc_private p item size).2.offset_free_uncached ≤
      (alloc_private p item size).2.offset_free_cached := by
  unfold alloc_private at hok ⊢
  by_cases h1 : p.offset_free_uncached > p.size ∨ p.offset_free_cached > p.size
  · rw [if_pos h1] at hok
    cases hok
  · rw [if_neg h1] at hok ⊢
    cases hscan : scanU p.mem item p.offset_free_uncached phdrSize with
    | corrupt =>
      simp only [hscan] at hok
      cases hok
    | found off =>
      simp only [hscan] at hok
      cases hok
    | done off =>
      simp only [hscan] at hok ⊢
      by_cases h2 : off > p.size
      · rw [if_pos h2] at hok
        cases hok
      · rw [if_neg h2] at hok ⊢
        by_cases h3 : off + allocSz size > p.offset_free_cached
        · rw [if_pos h3] at hok
          cases hok
        · rw [if_neg h3] at hok ⊢
          have hb := scanU_done_bounds p.mem item p.offset_free_uncached
            phdrSize off hscan
          have hA32 : allocSz size % 2 ^ 32 = allocSz size :=
            Nat.mod_eq_of_lt (by omega)
          show (p.offset_free_uncached + allocSz size % 2 ^ 32) % 2 ^ 32 ≤
            p.offset_free_cached
          rw [hA32, Nat.mod_eq_of_lt (by omega)]
          omega

/-- A well-formed partition rejects an allocation that would push the
forward cursor past the backward cursor, with ENOSPC and no write. -/
theorem alloc_private_nospace (p : PartitionMem) (item size : Nat)
    (hready : chainOk p item)
    (hE : p.offset_free_uncached ≤ p.size)
    (hC : p.offset_free_cached ≤ p.size)
    (hover : p.offset_free_uncached + allocSz size > p.offset_free_cached) :
    alloc_private p item size = (.error .noSpace, p) := by
  unfold chainOk at hready
  unfold alloc_private
  rw [if_neg (by omega)]
  simp only [hready]
  rw [if_neg (by omega), if_pos hover]

/-- Reaching a bad canary on the forward list makes `alloc_private` return
EINVAL, unchanged. -/
theorem alloc_private_corrupt (p : PartitionMem) (item size o : Nat)
    (hE : p.offset_free_uncached ≤ p.size)
    (hC : p.offset_free_cached ≤ p.size)
    (hr : ReachU p.mem item p.offset_free_uncached phdrSize o)
    (ho : o < p.offset_free_uncached)
    (hbad : (p.mem o).canary ≠ canaryVal) :
    alloc_private p item size = (.error .inval, p) := by
  unfold alloc_private
  rw [if_neg (by omega)]
  simp only [scanU_reach_corrupt p.mem item p.offset_free_uncached phdrSize o
    hr ho hbad]

/-- Reaching a bad canary on the forward list makes `get_private` return
EINVAL. -/
theorem get_private_corrupt_u (p : PartitionMem) (item fuel o : Nat)
    (hr : ReachU p.mem item p.offset_free_uncached phdrSize o)
    (ho : o < p.offset_free_uncached)
    (hbad : (p.mem o).canary ≠ canaryVal) :
    get_private p item fuel = some (.error .inval) := by
  unfold get_private
  simp only [scanU_reach_corrupt p.mem item p.offset_free_uncached phdrSize o
    hr ho hbad]

/-- Reaching a bad canary on the cached list makes `get_private` return
EINVAL, for any fuel beyond the steps needed to reach it. -/
theorem get_private_corrupt_c (p : PartitionMem) (item fuel d : Nat)
    (o : Int) (k : Nat)
    (hu : scanU p.mem item p.offset_free_uncached phdrSize = .done d)
    (hd : d ≤ p.size)
    (he0 : (0 : Int) ≤ (p.size : Int) - alignUp entryHdrSize p.cacheline)
    (hc : p.offset_free_cached ≤ p.size)
    (hr : ReachC p.mem item p.cacheline p.offset_free_cached
      ((p.size : Int) - alignUp entryHdrSize p.cacheline) o k)
    (ho : o > (p.offset_free_cached : Int))
    (hbad : (p.mem o).canary ≠ canaryVal)
    (hfuel : k < fuel) :
    get_private p item fuel = some (.error .inval) := by
  unfold get_private
  simp only [hu]
  rw [if_neg (by omega)]
  rw [if_neg (by push_neg; exact ⟨by omega, by omega⟩)]
  simp only [scanC_reach_corrupt p.mem item p.cacheline p.offset_free_cached
    ((p.size : Int) - alignUp entryHdrSize p.cacheline) o k hr ho hbad fuel hfuel]

/-- Any pointer `get_private` hands back lies between the partition header
and the partition end (though its data span may not: see the C5
counterexample). -/
theorem get_private_ptr_bounds (p : PartitionMem) (item fuel : Nat)
    (off : Int) (sz : Nat)
    (hok : get_private p item fuel = some (.ok (off, sz))) :
    0 ≤ off ∧ off ≤ (p.size : Int) := by
  unfold get_private at hok
  cases hscan : scanU p.mem item p.offset_free_uncached phdrSize with
  | corrupt =>
    simp only [hscan] at hok
    simp at hok
  | found o =>
    simp only [hscan] at hok
    by_cases h1 : (p.mem o).size > p.size ∨ (p.mem o).padding_data > (p.mem o).size
    · rw [if_pos h1] at hok
      cases hok
    · rw [if_neg h1] at hok
      by_cases h2 : o + entryHdrSize + (p.mem o).padding_hdr > p.size
      · rw [if_pos h2] at hok
        cases hok
      · rw [if_neg h2] at hok
        have : ((o + entryHdrSize + (p.mem o).padding_hdr : Nat) : Int) = off ∧
            (p.mem o).size - (p.mem o).padding_data = sz := by
          cases hok
          exact ⟨rfl, rfl⟩
        obtain ⟨ho, -⟩ := this
        constructor
        · omega
        · have : o + entryHdrSize + (p.mem o).padding_hdr ≤ p.size := by omega
          omega
  | done o =>
    simp only [hscan] at hok
    by_cases h1 : o > p.size
    · rw [if_pos h1] at hok
      cases hok
    · rw [if_neg h1] at hok
      by_cases h2 : ((p.size : Int) - alignUp entryHdrSize p.cacheline < 0) ∨
          p.offset_free_cached > p.size
      · rw [if_pos h2] at hok
        cases hok
      · rw [if_neg h2] at hok
        cases hscanc : scanC p.mem item p.cacheline p.offset_free_cached
            ((p.size : Int) - alignUp entryHdrSize p.cacheline) fuel with
        | nofuel =>
          simp only [hscanc] at hok
          simp at hok
        | corrupt =>
          simp only [hscanc] at hok
          simp at hok
        | found e =>
          simp only [hscanc] at hok
          by_cases h3 : (p.mem e).size > p.size ∨
              (p.mem e).padding_data > (p.mem e).size
          · rw [if_pos h3] at hok
            cases hok
          · rw [if_neg h3] at hok
            by_cases h4 : e - ((p.mem e).size : Int) < 0
            · rw [if_pos h4] at hok
              cases hok
            · rw [if_neg h4] at hok
              have hle := scanC_found_le p.mem item p.cacheline
                p.offset_free_cached fuel _ e hscanc
              have : e - ((p.mem e).size : Int) = off ∧
                  (p.mem e).size - (p.mem e).padding_data = sz := by
                cases hok
                exact ⟨rfl, rfl⟩
              obtain ⟨ho, -⟩ := this
              push_neg at h2
              have hszpos : (0 : Int) ≤ ((p.mem e).size : Int) :=
                Int.ofNat_nonneg _
              have hal : (0 : Int) ≤ (alignUp entryHdrSize p.cacheline : Int) :=
                Int.ofNat_nonneg _
              omega
        | done e =>
          simp only [hscanc] at hok
          by_cases h3 : e < 0
          · rw [if_pos h3] at hok
            cases hok
          · rw [if_neg h3] at hok
            cases hok

/-- When the forward walk ends cleanly on a cursor inside the partition and
the backward walk ends cleanly at or above the header, the lookup reports
ENOENT. -/
theorem get_private_notfound (p : PartitionMem) (item fuel d : Nat) (e : Int)
    (hu : scanU p.mem item p.offset_free_uncached phdrSize = .done d)
    (hd : d ≤ p.size)
    (he0 : (0 : Int) ≤ (p.size : Int) - alignUp entryHdrSize p.cacheline)
    (hc : p.offset_free_cached ≤ p.size)
    (hsc : scanC p.mem item p.cacheline p.offset_free_cached
      ((p.size : Int) - alignUp entryHdrSize p.cacheline) fuel = .done e)
    (he : (0 : Int) ≤ e) :
    get_private p item fuel = some (.error .noEnt) := by
  unfold get_private
  simp only [hu]
  rw [if_neg (by omega)]
  rw [if_neg (by push_neg; exact ⟨by omega, by omega⟩)]
  simp only [hsc]
  rw [if_neg (by omega)]

/-! ## Claim theorems -/

/-- C1: for every valid `(owner, item_id, size)` with the item id above the
reserved threshold (implied by allocation success) and below the item
count, a successful `qcom_smem_alloc(owner, item_id, size)` followed by
`qcom_smem_get(owner, item_id)` returns a non-error pointer whose reported
size is at least the requested size and whose span lies entirely within
the owning partition's (or, in legacy mode, the owning region's) bounds. -/
theorem claim_C1_alloc_get_span (s : Smem) (host item size fuel : Nat)
    (hready : allocReady s host item) (hitem : item < 2 ^ 16)
    (hsz : size < 2 ^ 32)
    (hok : (qcom_smem_alloc s host item size).1 = .ok ()) :
    ∃ loc rsz,
      qcom_smem_get (qcom_smem_alloc s host item size).2 host item fuel =
        some (.ok (loc, rsz)) ∧
      size ≤ rsz ∧ spanOk (qcom_smem_alloc s host item size).2 host loc rsz :=
  alloc_then_get s host item size fuel hready hitem hsz hok

/-- C2: once `qcom_smem_alloc` has succeeded for a pair, a second
`qcom_smem_alloc` with the same `(owner, item_id)` (and any size) returns
EEXIST and leaves the heap state — cursors and all records — unchanged. -/
theorem claim_C2_alloc_idempotent (s : Smem) (host item size size2 : Nat)
    (hready : allocReady s host item) (hitem : item < 2 ^ 16)
    (hsz : size < 2 ^ 32)
    (hok : (qcom_smem_alloc s host item size).1 = .ok ()) :
    qcom_smem_alloc (qcom_smem_alloc s host item size).2 host item size2 =
      (.error .already, (qcom_smem_alloc s host item size).2) :=
  alloc_then_alloc s host item size size2 hready hitem hsz hok

/-- C3: every successful private allocation re-establishes
`offset_free_uncached ≤ offset_free_cached`, and an allocation whose
record plus aligned data would push the forward cursor past the backward
cursor is rejected with ENOSPC, leaving the partition untouched. -/
theorem claim_C3_growth_invariant (p : PartitionMem) (item size : Nat)
    (h32 : p.size < 2 ^ 32) :
    ((alloc_private p item size).1 = .ok () →
      (alloc_private p item size).2.offset_free_uncached ≤
        (alloc_private p item size).2.offset_free_cached) ∧
    (chainOk p item → p.offset_free_uncached ≤ p.size →
      p.offset_free_cached ≤ p.size →
      p.offset_free_uncached + allocSz size > p.offset_free_cached →
      alloc_private p item size = (.error .noSpace, p)) :=
  ⟨fun hok => alloc_private_preserves p item size h32 hok,
   fun hready hE hC hover => alloc_private_nospace p item size hready hE hC hover⟩

/-- C4: in each of the three traversals (the allocator's forward scan, the
lookup's forward scan, the lookup's backward scan) the first reachable
entry whose canary differs from the 0xa5a5 sentinel makes the operation
fail with EINVAL at once — the corrupt entry is never skipped and nothing
past it is visited. -/
theorem claim_C4_canary_aborts :
    (∀ (p : PartitionMem) (item size o : Nat),
      p.offset_free_uncached ≤ p.size → p.offset_free_cached ≤ p.size →
      ReachU p.mem item p.offset_free_uncached phdrSize o →
      o < p.offset_free_uncached → (p.mem o).canary ≠ canaryVal →
      alloc_private p item size = (.error .inval, p)) ∧
    (∀ (p : PartitionMem) (item fuel o : Nat),
      ReachU p.mem item p.offset_free_uncached phdrSize o →
      o < p.offset_free_uncached → (p.mem o).canary ≠ canaryVal →
      get_private p item fuel = some (.error .inval)) ∧
    (∀ (p : PartitionMem) (item fuel d : Nat) (o : Int) (k : Nat),
      scanU p.mem item p.offset_free_uncached phdrSize = .done d →
      d ≤ p.size →
      (0 : Int) ≤ (p.size : Int) - alignUp entryHdrSize p.cacheline →
      p.offset_free_cached ≤ p.size →
      ReachC p.mem item p.cacheline p.offset_free_cached
        ((p.size : Int) - alignUp entryHdrSize p.cacheline) o k →
      o > (p.offset_free_cached : Int) → (p.mem o).canary ≠ canaryVal →
      k < fuel →
      get_private p item fuel = some (.error .inval)) :=
  ⟨fun p item size o hE hC hr ho hbad =>
      alloc_private_corrupt p item size o hE hC hr ho hbad,
   fun p item fuel o hr ho hbad =>
      get_private_corrupt_u p item fuel o hr ho hbad,
   fun p item fuel d o k hu hd he0 hc hr ho hbad hfuel =>
      get_private_corrupt_c p item fuel d o k hu hd he0 hc hr ho hbad hfuel⟩

/-- A concrete partition on which the lookup returns a pointer whose data
span leaves the partition: a single live record of 8 data bytes whose
header sits 16 bytes before the partition end. -/
def cexPart : PartitionMem :=
  ⟨52, 16, 52, 52, fun o => if o = 32 then ⟨0xa5a5, 42, 8, 0, 0⟩ else ⟨0, 0, 0, 0, 0⟩⟩

/-- C5 counterexample: `qcom_smem_get_private` happily returns offset 48
with reported size 8 out of a 52-byte partition — the record pointer is
validated against the partition end but the data span `[48, 56)` is not,
so a bounds violation does not always yield an error. -/
theorem claim_C5_counterexample :
    get_private cexPart 42 1 = some (.ok ((48 : Int), 8)) ∧
    ¬((48 : Int) + ((8 : Nat) : Int) ≤ (cexPart.size : Int)) := by
  constructor
  · unfold get_private cexPart
    rw [scanU, if_pos (by norm_num [phdrSize])]
    norm_num [canaryVal, phdrSize, entryHdrSize]
  · norm_num [cexPart]

/-- C5 as amended: on a match the lookup validates the stored size against
the partition size, the padding against the stored size, and the item
pointer against the partition bounds — so a returned pointer always lies
in `[header, header + size]`, though the data span may not — and when both
lists are walked cleanly with no match the lookup returns ENOENT. -/
theorem claim_C5_lookup_bounds :
    (∀ (p : PartitionMem) (item fuel : Nat) (off : Int) (sz : Nat),
      get_private p item fuel = some (.ok (off, sz)) →
      0 ≤ off ∧ off ≤ (p.size : Int)) ∧
    (∀ (p : PartitionMem) (item fuel d : Nat) (e : Int),
      scanU p.mem item p.offset_free_uncached phdrSize = .done d →
      d ≤ p.size →
      (0 : Int) ≤ (p.size : Int) - alignUp entryHdrSize p.cacheline →
      p.offset_free_cached ≤ p.size →
      scanC p.mem item p.cacheline p.offset_free_cached
        ((p.size : Int) - alignUp entryHdrSize p.cacheline) fuel = .done e →
      (0 : Int) ≤ e →
      get_private p item fuel = some (.error .noEnt)) :=
  ⟨fun p item fuel off sz hok => get_private_ptr_bounds p item fuel off sz hok,
   fun p item fuel d e hu hd he0 hc hsc he =>
      get_private_notfound p item fuel d e hu hd he0 hc hsc he⟩

/-- C6: the success path of a private allocation is the event sequence
written-record-fields, then the write barrier, then the cursor advance;
the final state is the fold of those events, and every prefix of the
sequence that contains the cursor advance already contains all five record
stores and the barrier — an observer of the advanced cursor observes the
complete record. -/
theorem claim_C6_publish_order (p : PartitionMem) (item size : Nat)
    (hready : chainOk p item)
    (hok : (alloc_private p item size).1 = .ok ()) :
    (alloc_private p item size).2 =
      allocEvs.foldl (applyEv item size p.offset_free_uncached (allocSz size)) p ∧
    ∀ l r, allocEvs = l ++ r → AllocEv.wCursor ∈ l →
      AllocEv.wCanary ∈ l ∧ AllocEv.wItem ∈ l ∧ AllocEv.wSize ∈ l ∧
      AllocEv.wPadData ∈ l ∧ AllocEv.wPadHdr ∈ l ∧ AllocEv.fence ∈ l := by
  obtain ⟨hE, hC, hfit, heq⟩ := alloc_private_success p item size hready hok
  constructor
  · rw [heq]
    unfold allocEvs
    simp only [List.foldl, applyEv]
    congr 1
    funext o
    by_cases ho : o = (p.offset_free_uncached : Int)
    · simp [updAt, ho, allocEntry]
    · simp [updAt, ho]
  · intro l r hsplit hcur
    simp only [allocEvs] at hsplit
    rcases l with _ | ⟨a0, l⟩
    · simp at hcur
    rcases l with _ | ⟨a1, l⟩
    · simp only [List.cons_append, List.nil_append, List.cons.injEq] at hsplit
      obtain ⟨rfl, -⟩ := hsplit
      simp at hcur
    rcases l with _ | ⟨a2, l⟩
    · simp only [List.cons_append, List.nil_append, List.cons.injEq] at hsplit
      obtain ⟨rfl, rfl, -⟩ := hsplit
      simp at hcur
    rcases l with _ | ⟨a3, l⟩
    · simp only [List.cons_append, List.nil_append, List.cons.injEq] at hsplit
      obtain ⟨rfl, rfl, rfl, -⟩ := hsplit
      simp at hcur
    rcases l with _ | ⟨a4, l⟩
    · simp only [List.cons_append, List.nil_append, List.cons.injEq] at hsplit
      obtain ⟨rfl, rfl, rfl, rfl, -⟩ := hsplit
      simp at hcur
    rcases l with _ | ⟨a5, l⟩
    · simp only [List.cons_append, List.nil_append, List.cons.injEq] at hsplit
      obtain ⟨rfl, rfl, rfl, rfl, rfl, -⟩ := hsplit
      simp at hcur
    rcases l with _ | ⟨a6, l⟩
    · simp only [List.cons_append, List.nil_append, List.cons.injEq] at hsplit
      obtain ⟨rfl, rfl, rfl, rfl, rfl, rfl, -⟩ := hsplit
      simp at hcur
    rcases l with _ | ⟨a7, l⟩
    · simp only [List.cons_append, List.nil_append, List.cons.injEq] at hsplit
      obtain ⟨rfl, rfl, rfl, rfl, rfl, rfl, rfl, -⟩ := hsplit
      simp
    · simp at hsplit

/-- C7: init's mode selection is total over the version slot's major value:
major 12 selects partitioned mode and fails exactly when no valid global
partition is found; major 11 selects legacy mode with the item capacity
fixed at 512; every other major fails with the unsupported-version error. -/
theorem claim_C7_version_dispatch (env : InitEnv) :
    (env.versionSlot >>> 16 = versionPart →
      (∀ e, set_global_partition env false = .error e →
        init_select env = .error e) ∧
      (∀ gp, set_global_partition env false = .ok gp →
        init_select env = .ok (.partitioned gp (get_item_count env)))) ∧
    (env.versionSlot >>> 16 = versionHeap →
      init_select env = .ok (.legacy itemCountLegacy)) ∧
    (env.versionSlot >>> 16 ≠ versionPart → env.versionSlot >>> 16 ≠ versionHeap →
      init_select env = .error .inval) := by
  unfold versionPart versionHeap
  refine ⟨fun h12 => ⟨fun e he => ?_, fun gp hgp => ?_⟩, fun h11 => ?_,
    fun hn12 hn11 => ?_⟩
  · unfold init_select
    rw [h12, he]
  · unfold init_select
    rw [h12, hgp]
  · unfold init_select
    rw [h11]
  · unfold init_select
    split
    · rename_i heq
      exact absurd heq hn12
    · rename_i heq
      exact absurd heq hn11
    · rfl

/-- C8: a partition header is accepted exactly when its magic matches, the
host pair equals the requested one, the stored size equals the table
entry's size, and the forward free offset is within that size; and a
successful enumeration implies every live table entry addressed to the
local host carried a header that passed that validation — a corrupt entry
is a hard failure, never skipped as absent. -/
theorem claim_C8_partition_validation :
    (∀ (rh : Nat → PartHeaderRaw) (entry : PEntry) (h0 h1 : Nat),
      (partition_header rh entry h0 h1).isSome ↔
        ((rh entry.offset).magicOk ∧ (rh entry.offset).host0 = h0 ∧
         (rh entry.offset).host1 = h1 ∧ (rh entry.offset).size = entry.size ∧
         (rh entry.offset).offset_free_uncached ≤ (rh entry.offset).size)) ∧
    (∀ (rh : Nat → PartHeaderRaw) (localHost : Nat) (entries : List PEntry)
        (acc : Nat → Option PartDesc) (f : Nat → Option PartDesc),
      enumerate_partitions rh localHost entries acc = .ok f →
      ∀ e ∈ entries, e.offset ≠ 0 → e.size ≠ 0 →
        (e.host0 = localHost ∨ e.host1 = localHost) →
        (partition_header rh e e.host0 e.host1).isSome) := by
  constructor
  · intro rh entry h0 h1
    unfold partition_header
    by_cases hm : (rh entry.offset).magicOk
    · rw [if_neg (by simpa using hm)]
      by_cases hh0 : (rh entry.offset).host0 = h0
      · rw [if_neg (by simpa using hh0)]
        by_cases hh1 : (rh entry.offset).host1 = h1
        · rw [if_neg (by simpa using hh1)]
          by_cases hsz : (rh entry.offset).size = entry.size
          · rw [if_neg (by simpa using hsz)]
            by_cases hfr : (rh entry.offset).offset_free_uncached >
                (rh entry.offset).size
            · rw [if_pos hfr]
              simp [hm, hh0, hh1, hsz]
              omega
            · rw [if_neg hfr]
              simp [hm, hh0, hh1, hsz]
              omega
          · rw [if_pos (by simpa using hsz)]
            simp [hsz]
        · rw [if_pos (by simpa using hh1)]
          simp [hh1]
      · rw [if_pos (by simpa using hh0)]
        simp [hh0]
    · rw [if_pos (by simpa using hm)]
      simp [hm]
  · intro rh localHost entries
    induction entries with
    | nil =>
      intro acc f henum e he
      cases he
    | cons e0 rest ih =>
      intro acc f henum e he hoff hsz hhost
      unfold enumerate_partitions at henum
      rcases List.mem_cons.mp he with rfl | hmem
      · rw [if_neg hoff, if_neg hsz, if_pos hhost] at henum
        by_cases hrem : (if e.host0 = localHost then e.host1 else e.host0) ≥
            hostCount
        · rw [if_pos hrem] at henum
          cases henum
        · rw [if_neg hrem] at henum
          by_cases hdup : (acc (if e.host0 = localHost then e.host1 else
              e.host0)).isSome
          · rw [if_pos hdup] at henum
            cases henum
          · rw [if_neg hdup] at henum
            cases hph : partition_header rh e e.host0 e.host1 with
            | none =>
              simp only [hph] at henum
              cases henum
            | some h =>
              rfl
      · by_cases hoff0 : e0.offset = 0
        · rw [if_pos hoff0] at henum
          exact ih acc f henum e hmem hoff hsz hhost
        · rw [if_neg hoff0] at henum
          by_cases hsz0 : e0.size = 0
          · rw [if_pos hsz0] at henum
            exact ih acc f henum e hmem hoff hsz hhost
          · rw [if_neg hsz0] at henum
            by_cases hhost0 : e0.host0 = localHost ∨ e0.host1 = localHost
            · rw [if_pos hhost0] at henum
              by_cases hrem : (if e0.host0 = localHost then e0.host1 else
                  e0.host0) ≥ hostCount
              · rw [if_pos hrem] at henum
                cases henum
              · rw [if_neg hrem] at henum
                by_cases hdup : (acc (if e0.host0 = localHost then e0.host1
                    else e0.host0)).isSome
                · rw [if_pos hdup] at henum
                  cases henum
                · rw [if_neg hdup] at henum
                  cases hph : partition_header rh e0 e0.host0 e0.host1 with
                  | none =>
                    simp only [hph] at henum
                    cases henum
                  | some h =>
                    simp only [hph] at henum
                    exact ih _ f henum e hmem hoff hsz hhost
            · rw [if_neg hhost0] at henum
              exact ih acc f henum e hmem hoff hsz hhost

/-- C9: in legacy mode, allocating into an already-allocated directory slot
fails with EEXIST; an aligned size above `available` fails with ENOMEM; in
both cases the slot and the `free_offset`/`available` counters keep their
values; in particular with `available = 0` every allocation of nonzero
(in-range) size into a free slot fails with ENOMEM. -/
theorem claim_C9_legacy_alloc (h : SmemHeader) (item size : Nat) :
    ((h.toc item).allocated ≠ 0 →
      alloc_global h item size = (.error .already, h)) ∧
    ((h.toc item).allocated = 0 → align8 size > h.available →
      alloc_global h item size = (.error .noMem, h)) ∧
    ((h.toc item).allocated = 0 → h.available = 0 → 0 < size → size < 2 ^ 32 →
      alloc_global h item size = (.error .noMem, h)) := by
  refine ⟨fun halloc => ?_, fun hfree hover => ?_, fun hfree hav hpos hlt => ?_⟩
  · unfold alloc_global
    rw [if_pos halloc]
  · unfold alloc_global
    rw [if_neg (by simpa using hfree), if_pos hover]
  · unfold alloc_global
    have h8 := align8_spec size hlt
    rw [if_neg (by simpa using hfree), if_pos (by omega)]

/-- C10: the reserved-item threshold binds only the allocator: any id below
SMEM_ITEM_LAST_FIXED is rejected by `qcom_smem_alloc` with EINVAL and no
state change, while `qcom_smem_get` applies only the item-count bound and
dispatches every id below it — reserved boot-stage items included — to the
ordinary lookup. -/
theorem claim_C10_reserved_threshold :
    (∀ (s : Smem) (host item size : Nat), item < itemLastFixed →
      qcom_smem_alloc s host item size = (.error .inval, s)) ∧
    (∀ (s : Smem) (host item fuel : Nat), item < s.item_count →
      qcom_smem_get s host item fuel = smem_lookup s host item fuel) := by
  constructor
  · intro s host item size hlt
    unfold qcom_smem_alloc
    rw [if_pos hlt]
  · intro s host item fuel hlt
    unfold qcom_smem_get
    rw [if_neg (by omega)]

/-! ## Concrete fixtures for the witnesses -/

/-- All-zero partition memory. -/
def wMem0 : Int → Entry := fun _ => ⟨0, 0, 0, 0, 0⟩

/-- A fresh 64-byte partition: cursors at 32 and 64, nothing allocated. -/
def wPart : PartitionMem := ⟨64, 16, 32, 64, wMem0⟩

/-- A fresh partition whose backward cursor leaves only 8 free bytes. -/
def wPartTight : PartitionMem := ⟨64, 16, 32, 40, wMem0⟩

/-- A partition whose forward list claims an entry at 32 with a zero
canary. -/
def wPartBad : PartitionMem := ⟨64, 16, 48, 64, wMem0⟩

/-- A partition with a clean (empty) forward list whose cached list starts
at 48 with a zero canary. -/
def wPartBadC : PartitionMem := ⟨64, 16, 32, 32, wMem0⟩

/-- A heap state with one private partition for host 0 and nothing else. -/
def wSmem : Smem :=
  ⟨512, fun h => if h = 0 then some wPart else none, none,
    ⟨0, 0, fun _ => ⟨0, 0, 0, 0⟩⟩, [⟨0, 4096⟩]⟩

/-- A legacy header with nothing available and slot 7 marked allocated. -/
def wGHdr : SmemHeader :=
  ⟨0, 0, fun i => if i = 7 then ⟨1, 0, 0, 0⟩ else ⟨0, 0, 0, 0⟩⟩

/-- Init environments whose version slots carry majors 11, 12 and 13, over
an unusable partition table. -/
def wEnv11 : InitEnv :=
  ⟨11 * 65536, ⟨false, 1, []⟩, fun _ => ⟨false, 0, 0, 0, 0⟩, false, 0⟩

/-- Major-12 variant of the fixture environment. -/
def wEnv12 : InitEnv :=
  ⟨12 * 65536, ⟨false, 1, []⟩, fun _ => ⟨false, 0, 0, 0, 0⟩, false, 0⟩

/-- Major-13 variant of the fixture environment. -/
def wEnv13 : InitEnv :=
  ⟨13 * 65536, ⟨false, 1, []⟩, fun _ => ⟨false, 0, 0, 0, 0⟩, false, 0⟩

/-- A header reader that always yields a header valid for hosts (1, 2) and
size 1024. -/
def wRh : Nat → PartHeaderRaw := fun _ => ⟨true, 1, 2, 1024, 32⟩

/-- A live partition table entry for hosts (1, 2). -/
def wPe : PEntry := ⟨4096, 1024, 1, 2, 64⟩

/-- The empty forward scan of the fresh fixture partition lands on its
cursor. -/
theorem wPart_chain : chainOk wPart 8 := by
  unfold chainOk wPart
  rw [scanU, if_neg (by norm_num [phdrSize])]
  rfl

/-- The fixture allocation of item 8 with 8 bytes succeeds. -/
theorem wSmem_alloc_ok : (qcom_smem_alloc wSmem 0 8 8).1 = .ok () := by
  unfold qcom_smem_alloc wSmem
  rw [if_neg (by norm_num [itemLastFixed]), if_neg (by norm_num),
    if_pos (by norm_num [hostCount])]
  norm_num
  unfold alloc_private wPart
  rw [if_neg (by norm_num)]
  rw [scanU, if_neg (by norm_num [phdrSize])]
  norm_num [phdrSize, allocSz, align8, entryHdrSize]

/-- The fixture heap is ready for host 0, item 8. -/
theorem wSmem_ready : allocReady wSmem 0 8 := by
  unfold allocReady lookupPart wSmem
  rw [if_pos (by norm_num [hostCount])]
  norm_num
  exact ⟨by norm_num [wPart], wPart_chain⟩

/-! ## Witnesses -/

/-- Witness for C1 on the fixture heap. -/
theorem claim_C1_witness :
    ∃ loc rsz,
      qcom_smem_get (qcom_smem_alloc wSmem 0 8 8).2 0 8 1 =
        some (.ok (loc, rsz)) ∧
      8 ≤ rsz ∧ spanOk (qcom_smem_alloc wSmem 0 8 8).2 0 loc rsz :=
  claim_C1_alloc_get_span wSmem 0 8 8 1 wSmem_ready (by norm_num)
    (by norm_num) wSmem_alloc_ok

/-- Witness for C2 on the fixture heap: the repeated allocation fails with
EEXIST and returns the state of the first allocation unchanged. -/
theorem claim_C2_witness :
    qcom_smem_alloc (qcom_smem_alloc wSmem 0 8 8).2 0 8 16 =
      (.error .already, (qcom_smem_alloc wSmem 0 8 8).2) :=
  claim_C2_alloc_idempotent wSmem 0 8 8 16 wSmem_ready (by norm_num)
    (by norm_num) wSmem_alloc_ok

/-- Witness for C3: the fixture success keeps the cursor invariant, and the
tight partition rejects a 100-byte request with ENOSPC, unchanged. -/
theorem claim_C3_witness :
    ((alloc_private wPart 8 8).1 = .ok () →
      (alloc_private wPart 8 8).2.offset_free_uncached ≤
        (alloc_private wPart 8 8).2.offset_free_cached) ∧
    alloc_private wPartTight 8 100 = (.error .noSpace, wPartTight) :=
  ⟨(claim_C3_growth_invariant wPart 8 8 (by norm_num [wPart])).1,
   (claim_C3_growth_invariant wPartTight 8 100 (by norm_num [wPartTight])).2
     (by unfold chainOk wPartTight
         rw [scanU, if_neg (by norm_num [phdrSize])]
         rfl)
     (by norm_num [wPartTight]) (by norm_num [wPartTight])
     (by norm_num [wPartTight, allocSz, align8, entryHdrSize])⟩

/-- Witness for C4: corrupt canaries abort the allocator's forward scan,
the lookup's forward scan, and the lookup's backward scan on concrete
partitions. -/
theorem claim_C4_witness :
    alloc_private wPartBad 8 8 = (.error .inval, wPartBad) ∧
    get_private wPartBad 8 1 = some (.error .inval) ∧
    get_private wPartBadC 8 1 = some (.error .inval) :=
  ⟨claim_C4_canary_aborts.1 wPartBad 8 8 phdrSize (by norm_num [wPartBad])
     (by norm_num [wPartBad]) (ReachU.refl phdrSize)
     (by norm_num [wPartBad, phdrSize])
     (by norm_num [wPartBad, wMem0, canaryVal]),
   claim_C4_canary_aborts.2.1 wPartBad 8 1 phdrSize (ReachU.refl phdrSize)
     (by norm_num [wPartBad, phdrSize])
     (by norm_num [wPartBad, wMem0, canaryVal]),
   claim_C4_canary_aborts.2.2 wPartBadC 8 1 phdrSize
     ((wPartBadC.size : Int) - alignUp entryHdrSize wPartBadC.cacheline) 0
     (by unfold wPartBadC
         rw [scanU, if_neg (by norm_num [phdrSize])])
     (by norm_num [wPartBadC, phdrSize])
     (by norm_num [wPartBadC, alignUp, entryHdrSize])
     (by norm_num [wPartBadC])
     (ReachC.refl _)
     (by norm_num [wPartBadC, alignUp, entryHdrSize])
     (by norm_num [wPartBadC, wMem0, canaryVal])
     (by norm_num)⟩

/-- Witness for the amended C5: the counterexample partition's returned
pointer still lies within the partition, and a clean no-match double walk
of the fixture partition reports ENOENT. -/
theorem claim_C5_witness :
    ((0 : Int) ≤ 48 ∧ (48 : Int) ≤ (cexPart.size : Int)) ∧
    get_private wPart 8 1 = some (.error .noEnt) :=
  ⟨claim_C5_lookup_bounds.1 cexPart 42 1 48 8
     (by unfold get_private cexPart
         rw [scanU, if_pos (by norm_num [phdrSize])]
         norm_num [canaryVal, phdrSize, entryHdrSize]),
   claim_C5_lookup_bounds.2 wPart 8 1 phdrSize
     ((wPart.size : Int) - alignUp entryHdrSize wPart.cacheline)
     (by unfold wPart
         rw [scanU, if_neg (by norm_num [phdrSize])])
     (by norm_num [wPart, phdrSize])
     (by norm_num [wPart, alignUp, entryHdrSize])
     (by norm_num [wPart])
     (by unfold wPart
         rw [scanC, if_neg (by norm_num [alignUp, entryHdrSize])])
     (by norm_num [wPart, alignUp, entryHdrSize])⟩

/-- Witness for C6 on the fixture partition. -/
theorem claim_C6_witness :
    (alloc_private wPart 8 8).2 =
      allocEvs.foldl (applyEv 8 8 wPart.offset_free_uncached (allocSz 8))
        wPart ∧
    ∀ l r, allocEvs = l ++ r → AllocEv.wCursor ∈ l →
      AllocEv.wCanary ∈ l ∧ AllocEv.wItem ∈ l ∧ AllocEv.wSize ∈ l ∧
      AllocEv.wPadData ∈ l ∧ AllocEv.wPadHdr ∈ l ∧ AllocEv.fence ∈ l :=
  claim_C6_publish_order wPart 8 8 wPart_chain
    (by unfold alloc_private wPart
        rw [if_neg (by norm_num)]
        rw [scanU, if_neg (by norm_num [phdrSize])]
        norm_num [phdrSize, allocSz, align8, entryHdrSize])

/-- Witness for C7 on the three fixture environments. -/
theorem claim_C7_witness :
    init_select wEnv12 = .error .noEnt ∧
    init_select wEnv11 = .ok (.legacy itemCountLegacy) ∧
    init_select wEnv13 = .error .inval :=
  ⟨((claim_C7_version_dispatch wEnv12).1 (by decide)).1
      .noEnt rfl,
   (claim_C7_version_dispatch wEnv11).2.1 (by decide),
   (claim_C7_version_dispatch wEnv13).2.2 (by decide)
     (by decide)⟩

/-- Witness for C8 on the fixture table entry and header reader. -/
theorem claim_C8_witness :
    ((partition_header wRh wPe 1 2).isSome ↔
      ((wRh wPe.offset).magicOk ∧ (wRh wPe.offset).host0 = 1 ∧
       (wRh wPe.offset).host1 = 2 ∧ (wRh wPe.offset).size = wPe.size ∧
       (wRh wPe.offset).offset_free_uncached ≤ (wRh wPe.offset).size)) ∧
    (partition_header wRh wPe wPe.host0 wPe.host1).isSome :=
  ⟨claim_C8_partition_validation.1 wRh wPe 1 2,
   claim_C8_partition_validation.2 wRh 1 [wPe] (fun _ => none) _ rfl wPe
     (by simp) (by norm_num [wPe]) (by norm_num [wPe]) (Or.inl rfl)⟩

/-- Witness for C9 on the exhausted fixture header. -/
theorem claim_C9_witness :
    alloc_global wGHdr 7 8 = (.error .already, wGHdr) ∧
    alloc_global wGHdr 50 8 = (.error .noMem, wGHdr) :=
  ⟨(claim_C9_legacy_alloc wGHdr 7 8).1 (by norm_num [wGHdr]),
   (claim_C9_legacy_alloc wGHdr 50 8).2.2 (by norm_num [wGHdr]) rfl
     (by norm_num) (by norm_num)⟩

/-- Witness for C10 on the fixture heap: a reserved id is rejected by the
allocator but dispatched normally by the lookup. -/
theorem claim_C10_witness :
    qcom_smem_alloc wSmem 0 3 8 = (.error .inval, wSmem) ∧
    qcom_smem_get wSmem 0 3 1 = smem_lookup wSmem 0 3 1 :=
  ⟨claim_C10_reserved_threshold.1 wSmem 0 3 8 (by norm_num [itemLastFixed]),
   claim_C10_reserved_threshold.2 wSmem 0 3 1 (by norm_num [wSmem])⟩

end Smem
